import Mathlib

/-!
Verification of the rust-VM toolchain against its design specification.

The development shallowly embeds the two-pass assembler
(`src/assembler/mod.rs`, `src/parser/instruction.rs`) and the virtual
machine step function (`vm/src/vm.rs`) of the repository.  Bytes are
natural numbers below 256, Rust's `u8`/`u16`/`u32`/`usize` casts are
explicit `% 2^w` operations on `Nat`/`Int`, and operations that can
panic in Rust (out-of-bounds indexing) return `Option`/carry an error
component.  Strings from the source language are represented by their
UTF-8 byte sequences (`List Nat`), matching Rust's `str::len` and
`str::as_bytes`.
-/

set_option maxRecDepth 10000

/-- Two's complement cast `v as u8` of an `i32` value. -/
def u8OfInt (v : Int) : Nat := (v % 256).toNat

/-- Two's complement cast `v as u16` of an `i32` value. -/
def u16OfInt (v : Int) : Nat := (v % 65536).toNat

/-- Two's complement cast `v as u32` of an `i32` value. -/
def u32OfInt (v : Int) : Nat := (v % 4294967296).toNat

/-- Two's complement cast `v as usize` of an `i32` value (64-bit target). -/
def usizeOfInt (v : Int) : Nat := (v % 18446744073709551616).toNat

/-- Big-endian byte pair of a `u16` (`u16::to_be_bytes`). -/
def u16be (n : Nat) : List Nat := [n / 256 % 256, n % 256]

/-- Big-endian bytes of a `u32` (`u32::to_be_bytes`). -/
def u32be (n : Nat) : List Nat :=
  [n / 16777216 % 256, n / 65536 % 256, n / 256 % 256, n % 256]

/-- Big-endian value of a byte list (used to read header fields back). -/
def beNat (bs : List Nat) : Nat := bs.foldl (fun acc b => acc * 256 + b) 0

/-- Interpretation of two big-endian bytes as an `i16`, sign-extended to `i32`
(`i16::from_be_bytes(..) as i32`). -/
def i16FromBeBytes (b0 b1 : Nat) : Int :=
  let n := (b0 * 256 + b1) % 65536
  if n < 32768 then (n : Int) else (n : Int) - 65536

/-- Interpretation of four big-endian bytes as an `i32`
(`i32::from_be_bytes`). -/
def i32FromBeBytes (b0 b1 b2 b3 : Nat) : Int :=
  let n := (((b0 * 256 + b1) * 256 + b2) * 256 + b3) % 4294967296
  if n < 2147483648 then (n : Int) else (n : Int) - 4294967296

/-- Wrap-around of a mathematical integer into the `i32` range
(release-mode wrapping semantics of Rust's `i32` arithmetic). -/
def wrap32 (z : Int) : Int := (z + 2147483648) % 4294967296 - 2147483648

/-- Operand sum type of the parser (`src/parser/operand/mod.rs`).
`Register` carries the `u8` produced by `parse_register`, `Value` the parsed
`i32` and `String` the UTF-8 bytes of a string literal. -/
inductive Operand where
  | Register (r : Nat)
  | Value (v : Int)
  | Label (name : String)
  | String (s : List Nat)
deriving DecidableEq, Repr

/-- Directive enumeration used by `src/parser/instruction.rs` and
`src/assembler/mod.rs` (the sized data directives, the alignment directive,
the two section directives and the unknown sentinel). -/
inductive Directive where
  | Align | Ascii | Asciiz | Byte | Half | Word | Space | Data | Code | Unknown
deriving DecidableEq, Repr

/-- Opcode enumeration of `src/opcode.rs`; each mnemonic has a fixed 8-bit
code. -/
inductive Opcode where
  | HLT | LDBI | LDBD | LDHI | LDHD | LDWD
  | STRBI | STRHI | STRWI | MOV
  | ADDR | ADDI | SUBR | SUBI | MULR | MULI | DIVR | DIVI
  | EQI | EQR | NEQI | NEQR | GTI | GTR | GTEI | GTER
  | LTI | LTR | LTEI | LTER
  | JMPI | JMPD | JMPR | JMPEI | JMPED | JMPER | JMPNEI | JMPNED | JMPNER
  | IGL
deriving DecidableEq, Repr

/-- The 8-bit discriminant of each opcode (`#[repr(u8)]` values of
`src/opcode.rs`; the assembler emits `opcode as u8`). -/
def Opcode.code : Opcode → Nat
  | .HLT => 0
  | .LDBI => 4
  | .LDBD => 5
  | .LDHI => 8
  | .LDHD => 9
  | .LDWD => 13
  | .STRBI => 16
  | .STRHI => 20
  | .STRWI => 24
  | .MOV => 30
  | .ADDI => 64
  | .ADDR => 66
  | .SUBI => 68
  | .SUBR => 70
  | .MULI => 72
  | .MULR => 74
  | .DIVI => 76
  | .DIVR => 78
  | .EQI => 128
  | .EQR => 130
  | .NEQI => 132
  | .NEQR => 134
  | .GTI => 136
  | .GTR => 138
  | .GTEI => 140
  | .GTER => 142
  | .LTI => 144
  | .LTR => 146
  | .LTEI => 148
  | .LTER => 150
  | .JMPI => 160
  | .JMPD => 161
  | .JMPR => 162
  | .JMPEI => 164
  | .JMPED => 165
  | .JMPER => 166
  | .JMPNEI => 168
  | .JMPNED => 169
  | .JMPNER => 170
  | .IGL => 255

/-- An opcode instruction record (`OpcodeInstruction` in
`src/parser/instruction.rs`). -/
structure OpcodeInstruction where
  label : Option String
  opcode : Opcode
  operands : List Operand
deriving DecidableEq, Repr

/-- A directive instruction record (`DirectiveInstruction` in
`src/parser/instruction.rs`). -/
structure DirectiveInstruction where
  label : Option String
  directive : Directive
  operands : List Operand
deriving DecidableEq, Repr

/-- A parsed instruction (`AssemblerInstruction`). -/
inductive AssemblerInstruction where
  | Opcode (i : OpcodeInstruction)
  | Directive (d : DirectiveInstruction)
deriving DecidableEq, Repr

/-- `ceil(value / alignment) * alignment`, exactly as computed by
`DirectiveInstruction::align` in `src/parser/instruction.rs`. -/
def align (value alignment : Nat) : Nat :=
  ((value + alignment - 1) / alignment) * alignment

/-- Number of `Operand::Value` operands (the `filter`/`count` used by
`DirectiveInstruction::size` for `.byte`, `.half` and `.word`). -/
def countValues (ops : List Operand) : Nat :=
  (ops.filter fun o => match o with | .Value _ => true | _ => false).length

/-- Size in bytes of a directive (`DirectiveInstruction::size`).
`alignment` is the pending `.align` value; `None` defaults to 4. -/
def DirectiveInstruction.size (d : DirectiveInstruction) (alignment : Option Nat) : Nat :=
  let a := alignment.getD 4
  match d.directive with
  | .Align => 0
  | .Ascii =>
    match d.operands.head? with
    | some (.String s) => align s.length a
    | _ => 0
  | .Asciiz =>
    match d.operands.head? with
    | some (.String s) => align (s.length + 1) a
    | _ => 0
  | .Byte => align (countValues d.operands) a
  | .Half => align (countValues d.operands * 2) a
  | .Word => align (countValues d.operands * 4) a
  | .Space =>
    match d.operands.head? with
    | some (.Value v) => usizeOfInt v
    | _ => 0
  | _ => 0

/-- Raw payload bytes of a data directive before zero padding (the `bytes`
vector built by `DirectiveInstruction::aligned_bytes`). -/
def directivePayload (d : DirectiveInstruction) : List Nat :=
  match d.directive with
  | .Ascii =>
    match d.operands.head? with
    | some (.String s) => s
    | _ => []
  | .Asciiz =>
    match d.operands.head? with
    | some (.String s) => s ++ [0]
    | _ => []
  | .Byte =>
    d.operands.filterMap fun o => match o with | .Value v => some (u8OfInt v) | _ => none
  | .Half =>
    (d.operands.filterMap fun o =>
      match o with | .Value v => some (u16be (u16OfInt v)) | _ => none).flatten
  | .Word =>
    (d.operands.filterMap fun o =>
      match o with | .Value v => some (u32be (u32OfInt v)) | _ => none).flatten
  | _ => []

/-- Emitted bytes of a data directive (`DirectiveInstruction::aligned_bytes`):
the payload, zero-padded up to `size` when shorter. -/
def DirectiveInstruction.aligned_bytes (d : DirectiveInstruction)
    (alignment : Option Nat) : Option (List Nat) :=
  let sz := d.size alignment
  let bytes := directivePayload d
  some (if bytes.length < sz then bytes ++ List.replicate (sz - bytes.length) 0 else bytes)

/-- Section register of the assembler (`src/assembler/section.rs`). -/
inductive AssemblerSection where
  | Data | Code | Unknown
deriving DecidableEq, Repr

/-- `impl From<Directive> for AssemblerSection`. -/
def sectionOfDirective : Directive → AssemblerSection
  | .Data => .Data
  | .Code => .Code
  | _ => .Unknown

/-- Error taxonomy of the assembler (`src/assembler/errors.rs`). -/
inductive AssemblerError where
  | NoSegmentDeclarationFound
  | StringConstantDeclaredWithoutLabel
  | SymbolAlreadyDeclared
  | UnknownDirectiveFound (directive : String)
  | NonOpcodeInOpcodeField
  | InsufficientSections
  | ParseError (error : String)
  | IncorrectOperand
deriving DecidableEq, Repr

/-- The symbol table: names mapped to `Symbol::offset` values (the only
`SymbolType` is `Label`).  Lookup is name-based, so an association list
models the `HashMap`. -/
abbrev SymbolTable : Type := List (String × Nat)

/-- `SymbolTable::get_symbol`, returning the symbol's offset. -/
def getSymbol (t : SymbolTable) (name : String) : Option Nat :=
  t.lookup name

/-- `SymbolTable::add_symbol`: inserts (replacing any previous binding, as
`HashMap::insert` does) and reports whether the name was new. -/
def addSymbol (t : SymbolTable) (name : String) (off : Nat) : SymbolTable × Bool :=
  ((name, off) :: t, (getSymbol t name).isNone)

/-- Assembler state (`struct Assembler` in `src/assembler/mod.rs`). -/
structure Assembler where
  data_section : List Nat
  code_section : List Nat
  symbols : SymbolTable
  current_section : Option AssemblerSection
  next_alignment : Option Nat
deriving DecidableEq, Repr

/-- `Assembler::default()`. -/
def Assembler.default : Assembler :=
  { data_section := [], code_section := [], symbols := [],
    current_section := none, next_alignment := none }

/-- `Assembler::handle_directive_first_pass`.  Returns the updated state, the
updated running offset, and the error if one occurred (the state reached so
far survives an error, as it does through Rust's `&mut self`). -/
def handleDirectiveFirstPass (a : Assembler) (off : Nat) (d : DirectiveInstruction) :
    Assembler × Nat × Option AssemblerError :=
  if d.operands = [] then
    ({ a with current_section := some (sectionOfDirective d.directive) }, off, none)
  else if a.current_section = none then
    (a, off, some .NoSegmentDeclarationFound)
  else
    let step :=
      match d.directive with
      | .Align =>
        match d.operands.head? with
        | some (.Value v) => ({ a with next_alignment := some (usizeOfInt v) }, none)
        | _ => (a, none)
      | .Ascii | .Asciiz | .Byte | .Half | .Word | .Space =>
        match d.label with
        | some name =>
          let (t, isNew) := addSymbol a.symbols name off
          if isNew then ({ a with symbols := t }, none)
          else ({ a with symbols := t }, some AssemblerError.SymbolAlreadyDeclared)
        | none => (a, none)
      | _ => (a, none)
    match step with
    | (a1, some e) => (a1, off, some e)
    | (a1, none) =>
      if d.directive ≠ Directive.Align then
        ({ a1 with next_alignment := none }, off + d.size a1.next_alignment, none)
      else
        (a1, off, none)

/-- The loop body of `Assembler::first_pass`, threading the state and the
running offset through the instruction list. -/
def firstPassList (a : Assembler) (off : Nat) :
    List AssemblerInstruction → Assembler × Nat × Option AssemblerError
  | [] => (a, off, none)
  | .Opcode oi :: rest =>
    match oi.label with
    | none => firstPassList a (off + 4) rest
    | some name =>
      if a.current_section = none then
        (a, off, some .NoSegmentDeclarationFound)
      else
        let (t, isNew) := addSymbol a.symbols name off
        if isNew then firstPassList { a with symbols := t } (off + 4) rest
        else ({ a with symbols := t }, off, some .SymbolAlreadyDeclared)
  | .Directive d :: rest =>
    match handleDirectiveFirstPass a off d with
    | (a1, off1, none) => firstPassList a1 off1 rest
    | (a1, off1, some e) => (a1, off1, some e)

/-- `Assembler::first_pass`: the running offset starts at 0. -/
def Assembler.first_pass (a : Assembler) (prog : List AssemblerInstruction) :
    Assembler × Nat × Option AssemblerError :=
  firstPassList a 0 prog

/-- Encoding of one operand inside an opcode instruction during
`Assembler::second_pass`.  A label reference is emitted as
`symbol.offset as u16 + PIE_HEADER_LENGTH as u16` in big-endian. -/
def encodeOperand (a : Assembler) (o : Operand) : Except AssemblerError (List Nat) :=
  match o with
  | .Register r => .ok [r]
  | .Value v => .ok (u16be (u16OfInt v))
  | .Label name =>
    match getSymbol a.symbols name with
    | none => .error .IncorrectOperand
    | some off => .ok (u16be ((off % 65536 + 64) % 65536))
  | .String _ => .error .IncorrectOperand

/-- Encoding of an operand list (the `for operand in ... take(3)` loop),
failing at the first bad operand. -/
def encodeOperands (a : Assembler) : List Operand → Except AssemblerError (List Nat)
  | [] => .ok []
  | o :: rest => do
    let b ← encodeOperand a o
    let bs ← encodeOperands a rest
    pure (b ++ bs)

/-- `Assembler::handle_directive_second_pass`.  Note that the source appends
the bytes of a data directive to `data_section` in the `Code` arm of its
match as well as in the `Data` arm. -/
def handleDirectiveSecondPass (a : Assembler) (d : DirectiveInstruction) :
    Assembler × Option AssemblerError :=
  if d.operands = [] then
    ({ a with current_section := some (sectionOfDirective d.directive) }, none)
  else
    match d.directive with
    | .Align =>
      match d.operands.head? with
      | some (.Value v) => ({ a with next_alignment := some (usizeOfInt v) }, none)
      | _ => (a, none)
    | .Ascii | .Asciiz | .Byte | .Half | .Word | .Space =>
      let bytes := d.aligned_bytes a.next_alignment
      let a1 := { a with next_alignment := none }
      match a1.current_section, bytes with
      | some .Data, some bs => ({ a1 with data_section := a1.data_section ++ bs }, none)
      | some .Code, some bs => ({ a1 with data_section := a1.data_section ++ bs }, none)
      | _, _ => (a1, some .NoSegmentDeclarationFound)
    | _ => (a, none)

/-- The loop body of `Assembler::second_pass`: an opcode instruction becomes
`[code, operand bytes...]` zero-padded up to 4 bytes and appended to the
code section; directives are delegated. -/
def secondPassList (a : Assembler) :
    List AssemblerInstruction → Assembler × Option AssemblerError
  | [] => (a, none)
  | .Opcode oi :: rest =>
    match encodeOperands a (oi.operands.take 3) with
    | .error e => (a, some e)
    | .ok obytes =>
      let buf := oi.opcode.code :: obytes
      let buf := if buf.length < 4 then buf ++ List.replicate (4 - buf.length) 0 else buf
      secondPassList { a with code_section := a.code_section ++ buf } rest
  | .Directive d :: rest =>
    match handleDirectiveSecondPass a d with
    | (a1, none) => secondPassList a1 rest
    | (a1, some e) => (a1, some e)

/-- `Assembler::create_header`: magic, four zero bytes, four big-endian
`u32` fields, zero-padded to 64 bytes. -/
def createHeader (a : Assembler) : List Nat :=
  let out :=
    [69, 80, 73, 69] ++ [0, 0, 0, 0] ++
    u32be 64 ++
    u32be (a.data_section.length % 4294967296) ++
    u32be ((64 + a.data_section.length) % 4294967296) ++
    u32be (a.code_section.length % 4294967296)
  if out.length < 64 then out ++ List.replicate (64 - out.length) 0 else out

/-- `Assembler::assemble`, starting from the parsed instruction list
(`Program::parse` output): both passes, then header, data section and code
section concatenated.  The method works on `&mut self`, so the (possibly
partially updated) state is returned alongside the result. -/
def Assembler.assemble (a : Assembler) (prog : List AssemblerInstruction) :
    Assembler × Except AssemblerError (List Nat) :=
  match firstPassList a 0 prog with
  | (a1, _, some e) => (a1, .error e)
  | (a1, _, none) =>
    match secondPassList a1 prog with
    | (a2, some e) => (a2, .error e)
    | (a2, none) =>
      (a2, .ok (createHeader a2 ++ a2.data_section ++ a2.code_section))

/-- The `u8` produced by `parse_register` in `src/parser/operand/register.rs`
from the parsed number: `number as u8`, with no range check. -/
def parseRegisterByte (number : Int) : Nat := u8OfInt number

/-- Opcode enumeration of the `shared` crate, as dispatched on by
`vm/src/vm.rs`. -/
inductive SharedOpcode where
  | HLT
  | LDBI | LDBD | LDBR | LDHI | LDHD | LDHR | LDWD | LDWR
  | STRBI | STRBR | STRHI | STRHR | STRWI | STRWR
  | MOV
  | ADDR | ADDI | SUBR | SUBI | MULR | MULI | DIVR | DIVI
  | EQI | EQR | NEQI | NEQR | GTI | GTR | GTEI | GTER
  | LTI | LTR | LTEI | LTER
  | JMPI | JMPD | JMPR | JMPEI | JMPED | JMPER | JMPNEI | JMPNED | JMPNER
  | PRTSD | PRTSR
  | IGL
deriving DecidableEq, Repr

/-- Modelled from the spec: `Opcode::from_u8` of the `shared` crate
(`shared/src/opcode.rs` is not among the sources).  All numeric codes used
below are pinned by the unit tests in `vm/src/vm.rs` except `PRTSD`/`PRTSR`,
whose codes follow the documented upper-six-bits/addressing-mode encoding
scheme; unknown codes decode to the `IGL` sentinel. -/
def sharedOpcodeFromU8 (n : Nat) : SharedOpcode :=
  match n with
  | 0 => .HLT
  | 4 => .LDBI
  | 5 => .LDBD
  | 6 => .LDBR
  | 8 => .LDHI
  | 9 => .LDHD
  | 10 => .LDHR
  | 13 => .LDWD
  | 14 => .LDWR
  | 16 => .STRBI
  | 18 => .STRBR
  | 20 => .STRHI
  | 22 => .STRHR
  | 24 => .STRWI
  | 26 => .STRWR
  | 30 => .MOV
  | 64 => .ADDI
  | 66 => .ADDR
  | 68 => .SUBI
  | 70 => .SUBR
  | 72 => .MULI
  | 74 => .MULR
  | 76 => .DIVI
  | 78 => .DIVR
  | 128 => .EQI
  | 130 => .EQR
  | 132 => .NEQI
  | 134 => .NEQR
  | 136 => .GTI
  | 138 => .GTR
  | 140 => .GTEI
  | 142 => .GTER
  | 144 => .LTI
  | 146 => .LTR
  | 148 => .LTEI
  | 150 => .LTER
  | 160 => .JMPI
  | 161 => .JMPD
  | 162 => .JMPR
  | 164 => .JMPEI
  | 165 => .JMPED
  | 166 => .JMPER
  | 168 => .JMPNEI
  | 169 => .JMPNED
  | 170 => .JMPNER
  | 177 => .PRTSD
  | 178 => .PRTSR
  | _ => .IGL

/-- State of the virtual machine (`struct VM` in `vm/src/vm.rs`): 32 signed
32-bit registers, a byte program counter, the program image as writable
bytes, the code-section start, the division remainder and the equality
flag. -/
structure VM where
  registers : List Int
  pc : Nat
  program : List Nat
  code_section_start : Nat
  remainder : Nat
  equality_flag : Bool
deriving DecidableEq, Repr

/-- Read of `registers[i]` (`Instruction::next_register`); `none` models the
index-out-of-bounds panic when the operand byte is not below 32. -/
def readReg (regs : List Int) (i : Nat) : Option Int := regs.get? i

/-- Write of `registers[i] = v`; `none` models the out-of-bounds panic. -/
def writeReg (regs : List Int) (i : Nat) (v : Int) : Option (List Int) :=
  if i < regs.length then some (regs.set i v) else none

/-- Read of `program[a]`; `none` models the out-of-bounds panic. -/
def readByte (prog : List Nat) (a : Nat) : Option Nat := prog.get? a

/-- Write of `program[a] = b`; `none` models the out-of-bounds panic. -/
def writeByte (prog : List Nat) (a : Nat) (b : Nat) : Option (List Nat) :=
  if a < prog.length then some (prog.set a b) else none

/-- The byte offset of the first `NUL` at or after `start` in the program
image, as found by the `while self.program[end] != 0` scan of the print
opcodes; `none` models the panic when the scan runs past the end. -/
def findNulFrom (prog : List Nat) (start : Nat) : Option Nat :=
  ((prog.drop start).findIdx? (fun b => b = 0)).map (start + ·)

/-- One dispatch arm of `VM::execute_instruction`: `vm` already has its
program counter advanced past the 4-byte word, `op` is the decoded opcode
and `b1 b2 b3` the three operand bytes in order.  The result is the updated
machine and the continue flag; `none` models a Rust panic (out-of-bounds
indexing, division by zero). -/
def execArm (vm : VM) (op : SharedOpcode) (b1 b2 b3 : Nat) : Option (VM × Bool) :=
  match op with
  | .HLT => some (vm, false)
  | .LDBI => do
    let value : Int := ((b2 * 256 + b3) % 65536 % 256 : Nat)
    let regs ← writeReg vm.registers b1 value
    some ({ vm with registers := regs }, true)
  | .LDBD => do
    let addr := (b2 * 256 + b3) % 65536
    let byte ← readByte vm.program addr
    let regs ← writeReg vm.registers b1 (byte : Int)
    some ({ vm with registers := regs }, true)
  | .LDBR => do
    let rv ← readReg vm.registers b2
    let addr := usizeOfInt rv
    let byte ← readByte vm.program addr
    let regs ← writeReg vm.registers b1 (byte : Int)
    some ({ vm with registers := regs }, true)
  | .LDHI => do
    let value : Int := ((b2 * 256 + b3) % 65536 : Nat)
    let regs ← writeReg vm.registers b1 value
    some ({ vm with registers := regs }, true)
  | .LDHD => do
    let addr := (b2 * 256 + b3) % 65536
    let x0 ← readByte vm.program addr
    let x1 ← readByte vm.program (addr + 1)
    let regs ← writeReg vm.registers b1 (i16FromBeBytes x0 x1)
    some ({ vm with registers := regs }, true)
  | .LDHR => do
    let rv ← readReg vm.registers b2
    let addr := usizeOfInt rv
    let x0 ← readByte vm.program addr
    let x1 ← readByte vm.program (addr + 1)
    let regs ← writeReg vm.registers b1 (i16FromBeBytes x0 x1)
    some ({ vm with registers := regs }, true)
  | .LDWD => do
    let addr := (b2 * 256 + b3) % 65536
    let x0 ← readByte vm.program addr
    let x1 ← readByte vm.program (addr + 1)
    let x2 ← readByte vm.program (addr + 2)
    let x3 ← readByte vm.program (addr + 3)
    let regs ← writeReg vm.registers b1 (i32FromBeBytes x0 x1 x2 x3)
    some ({ vm with registers := regs }, true)
  | .LDWR => do
    let rv ← readReg vm.registers b2
    let addr := usizeOfInt rv
    let x0 ← readByte vm.program addr
    let x1 ← readByte vm.program (addr + 1)
    let x2 ← readByte vm.program (addr + 2)
    let x3 ← readByte vm.program (addr + 3)
    let regs ← writeReg vm.registers b1 (i32FromBeBytes x0 x1 x2 x3)
    some ({ vm with registers := regs }, true)
  | .STRBI => do
    let rv ← readReg vm.registers b1
    let addr := (b2 * 256 + b3) % 65536
    let prog ← writeByte vm.program addr (u8OfInt rv)
    some ({ vm with program := prog }, true)
  | .STRBR => do
    let rv ← readReg vm.registers b1
    let av ← readReg vm.registers b2
    let addr := usizeOfInt av
    let prog ← writeByte vm.program addr (u8OfInt rv)
    some ({ vm with program := prog }, true)
  | .STRHI => do
    let rv ← readReg vm.registers b1
    let addr := (b2 * 256 + b3) % 65536
    let n := u16OfInt rv
    let prog ← writeByte vm.program addr (n / 256 % 256)
    let prog ← writeByte prog (addr + 1) (n % 256)
    some ({ vm with program := prog }, true)
  | .STRHR => do
    let rv ← readReg vm.registers b1
    let av ← readReg vm.registers b2
    let addr := usizeOfInt av
    let n := u16OfInt rv
    let prog ← writeByte vm.program addr (n / 256 % 256)
    let prog ← writeByte prog (addr + 1) (n % 256)
    some ({ vm with program := prog }, true)
  | .STRWI => do
    let rv ← readReg vm.registers b1
    let addr := (b2 * 256 + b3) % 65536
    let n := u32OfInt rv
    let prog ← writeByte vm.program addr (n / 16777216 % 256)
    let prog ← writeByte prog (addr + 1) (n / 65536 % 256)
    let prog ← writeByte prog (addr + 2) (n / 256 % 256)
    let prog ← writeByte prog (addr + 3) (n % 256)
    some ({ vm with program := prog }, true)
  | .STRWR => do
    let rv ← readReg vm.registers b1
    let av ← readReg vm.registers b2
    let addr := usizeOfInt av
    let n := u32OfInt rv
    let prog ← writeByte vm.program addr (n / 16777216 % 256)
    let prog ← writeByte prog (addr + 1) (n / 65536 % 256)
    let prog ← writeByte prog (addr + 2) (n / 256 % 256)
    let prog ← writeByte prog (addr + 3) (n % 256)
    some ({ vm with program := prog }, true)
  | .MOV => do
    let rb ← readReg vm.registers b2
    let regs ← writeReg vm.registers b1 rb
    some ({ vm with registers := regs }, true)
  | .ADDR => do
    let rb ← readReg vm.registers b2
    let rc ← readReg vm.registers b3
    let regs ← writeReg vm.registers b1 (wrap32 (rb + rc))
    some ({ vm with registers := regs }, true)
  | .ADDI => do
    let ra ← readReg vm.registers b1
    let value : Int := ((b2 * 256 + b3) % 65536 : Nat)
    let regs ← writeReg vm.registers b1 (wrap32 (ra + value))
    some ({ vm with registers := regs }, true)
  | .SUBR => do
    let rb ← readReg vm.registers b2
    let rc ← readReg vm.registers b3
    let regs ← writeReg vm.registers b1 (wrap32 (rb - rc))
    some ({ vm with registers := regs }, true)
  | .SUBI => do
    let ra ← readReg vm.registers b1
    let value : Int := ((b2 * 256 + b3) % 65536 : Nat)
    let regs ← writeReg vm.registers b1 (wrap32 (ra - value))
    some ({ vm with registers := regs }, true)
  | .MULR => do
    let rb ← readReg vm.registers b2
    let rc ← readReg vm.registers b3
    let regs ← writeReg vm.registers b1 (wrap32 (rb * rc))
    some ({ vm with registers := regs }, true)
  | .MULI => do
    let ra ← readReg vm.registers b1
    let value : Int := ((b2 * 256 + b3) % 65536 : Nat)
    let regs ← writeReg vm.registers b1 (wrap32 (ra * value))
    some ({ vm with registers := regs }, true)
  | .DIVR => do
    let rb ← readReg vm.registers b2
    let rc ← readReg vm.registers b3
    if rc = 0 then none
    else
      let regs ← writeReg vm.registers b1 (Int.tdiv rb rc)
      some ({ vm with registers := regs, remainder := u32OfInt (Int.tmod rb rc) }, true)
  | .DIVI => do
    let ra ← readReg vm.registers b1
    let value : Int := ((b2 * 256 + b3) % 65536 : Nat)
    if value = 0 then none
    else
      let regs ← writeReg vm.registers b1 (Int.tdiv ra value)
      some ({ vm with registers := regs, remainder := u32OfInt (Int.tmod ra value) }, true)
  | .EQI => do
    let rv ← readReg vm.registers b1
    let value : Int := ((b2 * 256 + b3) % 65536 : Nat)
    some ({ vm with equality_flag := decide (rv = value) }, true)
  | .EQR => do
    let ra ← readReg vm.registers b1
    let rb ← readReg vm.registers b2
    some ({ vm with equality_flag := decide (ra = rb) }, true)
  | .NEQI => do
    let rv ← readReg vm.registers b1
    let value : Int := ((b2 * 256 + b3) % 65536 : Nat)
    some ({ vm with equality_flag := decide (rv ≠ value) }, true)
  | .NEQR => do
    let ra ← readReg vm.registers b1
    let rb ← readReg vm.registers b2
    some ({ vm with equality_flag := decide (ra ≠ rb) }, true)
  | .GTI => do
    let rv ← readReg vm.registers b1
    let value : Int := ((b2 * 256 + b3) % 65536 : Nat)
    some ({ vm with equality_flag := decide (rv > value) }, true)
  | .GTR => do
    let ra ← readReg vm.registers b1
    let rb ← readReg vm.registers b2
    some ({ vm with equality_flag := decide (ra > rb) }, true)
  | .GTEI => do
    let rv ← readReg vm.registers b1
    let value : Int := ((b2 * 256 + b3) % 65536 : Nat)
    some ({ vm with equality_flag := decide (rv ≥ value) }, true)
  | .GTER => do
    let ra ← readReg vm.registers b1
    let rb ← readReg vm.registers b2
    some ({ vm with equality_flag := decide (ra ≥ rb) }, true)
  | .LTI => do
    let rv ← readReg vm.registers b1
    let value : Int := ((b2 * 256 + b3) % 65536 : Nat)
    some ({ vm with equality_flag := decide (rv < value) }, true)
  | .LTR => do
    let ra ← readReg vm.registers b1
    let rb ← readReg vm.registers b2
    some ({ vm with equality_flag := decide (ra < rb) }, true)
  | .LTEI => do
    let rv ← readReg vm.registers b1
    let value : Int := ((b2 * 256 + b3) % 65536 : Nat)
    some ({ vm with equality_flag := decide (rv ≤ value) }, true)
  | .LTER => do
    let ra ← readReg vm.registers b1
    let rb ← readReg vm.registers b2
    some ({ vm with equality_flag := decide (ra ≤ rb) }, true)
  | .JMPI =>
    some ({ vm with pc := (b1 * 256 + b2) % 65536 }, true)
  | .JMPD => do
    let addr := (b1 * 256 + b2) % 65536
    let x0 ← readByte vm.program addr
    let x1 ← readByte vm.program (addr + 1)
    let x2 ← readByte vm.program (addr + 2)
    let x3 ← readByte vm.program (addr + 3)
    some ({ vm with pc := (((x0 * 256 + x1) * 256 + x2) * 256 + x3) % 4294967296 }, true)
  | .JMPR => do
    let rv ← readReg vm.registers b1
    some ({ vm with pc := usizeOfInt rv }, true)
  | .JMPEI =>
    if vm.equality_flag then some ({ vm with pc := (b1 * 256 + b2) % 65536 }, true)
    else some (vm, true)
  | .JMPED =>
    if vm.equality_flag then do
      let addr := (b1 * 256 + b2) % 65536
      let x0 ← readByte vm.program addr
      let x1 ← readByte vm.program (addr + 1)
      let x2 ← readByte vm.program (addr + 2)
      let x3 ← readByte vm.program (addr + 3)
      some ({ vm with pc := (((x0 * 256 + x1) * 256 + x2) * 256 + x3) % 4294967296 }, true)
    else some (vm, true)
  | .JMPER =>
    if vm.equality_flag then do
      let rv ← readReg vm.registers b1
      some ({ vm with pc := usizeOfInt rv }, true)
    else some (vm, true)
  | .JMPNEI =>
    if !vm.equality_flag then some ({ vm with pc := (b1 * 256 + b2) % 65536 }, true)
    else some (vm, true)
  | .JMPNED =>
    if !vm.equality_flag then do
      let addr := (b1 * 256 + b2) % 65536
      let x0 ← readByte vm.program addr
      let x1 ← readByte vm.program (addr + 1)
      let x2 ← readByte vm.program (addr + 2)
      let x3 ← readByte vm.program (addr + 3)
      some ({ vm with pc := (((x0 * 256 + x1) * 256 + x2) * 256 + x3) % 4294967296 }, true)
    else some (vm, true)
  | .JMPNER =>
    if !vm.equality_flag then do
      let rv ← readReg vm.registers b1
      some ({ vm with pc := usizeOfInt rv }, true)
    else some (vm, true)
  | .PRTSD => do
    let start := (b1 * 256 + b2) % 65536
    let _ ← findNulFrom vm.program start
    some (vm, true)
  | .PRTSR => do
    let rv ← readReg vm.registers b1
    let start := usizeOfInt rv
    let _ ← findNulFrom vm.program start
    some (vm, true)
  | .IGL => some (vm, false)

/-- `VM::execute_instruction`: return "stop" when `pc` is past the program;
otherwise slice `program[pc..pc + 4]` (panicking, hence `none`, when fewer
than 4 bytes remain), advance `pc` by 4, and dispatch on the decoded
opcode. -/
def VM.execute_instruction (vm : VM) : Option (VM × Bool) :=
  if vm.program.length ≤ vm.pc then some (vm, false)
  else if vm.program.length < vm.pc + 4 then none
  else
    execArm { vm with pc := vm.pc + 4 }
      (sharedOpcodeFromU8 (vm.program.getD vm.pc 0))
      (vm.program.getD (vm.pc + 1) 0)
      (vm.program.getD (vm.pc + 2) 0)
      (vm.program.getD (vm.pc + 3) 0)

/-- Symbol table with every offset raised by `k` (used to compare a
first pass started at offset `k` with one started at offset 0). -/
def shiftSyms (k : Nat) (t : SymbolTable) : SymbolTable :=
  t.map fun p => (p.1, p.2 + k)

/-- The sized data directives: those that charge bytes in pass 1 and emit
bytes in pass 2. -/
def IsSizedDirective (dv : Directive) : Prop :=
  dv = .Ascii ∨ dv = .Asciiz ∨ dv = .Byte ∨ dv = .Half ∨ dv = .Word ∨ dv = .Space

/-- A `.code` section holding a single labelled `hlt`. -/
def progLabelledHalt : List AssemblerInstruction :=
  [ .Directive ⟨none, .Code, []⟩,
    .Opcode ⟨some "foo", .HLT, []⟩ ]

/-- A program whose `.data` section appears between two `.code` stretches:
`hlt` under `.code`, then a labelled `.byte` under `.data`, then `ldbd`
referring to that label under `.code` again. -/
def progInterleaved : List AssemblerInstruction :=
  [ .Directive ⟨none, .Code, []⟩,
    .Opcode ⟨none, .HLT, []⟩,
    .Directive ⟨none, .Data, []⟩,
    .Directive ⟨some "x", .Byte, [.Value 1]⟩,
    .Directive ⟨none, .Code, []⟩,
    .Opcode ⟨none, .LDBD, [.Register 0, .Label "x"]⟩ ]

/-- `.data`, then `.align 8`, then a `.data` directive that carries an
operand, then a labelled one-byte `.ascii`. -/
def progAlignDesync : List AssemblerInstruction :=
  [ .Directive ⟨none, .Data, []⟩,
    .Directive ⟨none, .Align, [.Value 8]⟩,
    .Directive ⟨none, .Data, [.Value 1]⟩,
    .Directive ⟨some "x", .Ascii, [.String [97]]⟩ ]

/-- A `.byte` data directive placed under the `.code` section. -/
def progCodeByte : List AssemblerInstruction :=
  [ .Directive ⟨none, .Code, []⟩,
    .Directive ⟨none, .Byte, [.Value 1, .Value 2, .Value 3, .Value 4]⟩ ]

/-- A single unlabelled `hlt`. -/
def progHalt : List AssemblerInstruction :=
  [ .Opcode ⟨none, .HLT, []⟩ ]

/-- `mov $100, $1`: the register operand byte is the parsed number
truncated through `u8`. -/
def progRegister100 : List AssemblerInstruction :=
  [ .Opcode ⟨none, .MOV, [.Register (parseRegisterByte 100), .Register 1]⟩ ]

/-- C7: the bytes of a data directive appearing under `.code` are appended
to the data section, not the code section: assembling `.code` followed by
`.byte 1,2,3,4` yields an image whose data section holds `1 2 3 4` (header
records data length 4, code length 0) while the code section stays empty,
although `current_section` is `Code`. -/
theorem code_byte_directive_lands_in_data_section :
    (Assembler.assemble Assembler.default progCodeByte).1.current_section =
      some AssemblerSection.Code ∧
    (Assembler.assemble Assembler.default progCodeByte).1.data_section = [1, 2, 3, 4] ∧
    (Assembler.assemble Assembler.default progCodeByte).1.code_section = [] ∧
    (Assembler.assemble Assembler.default progCodeByte).2 =
      .ok ([69, 80, 73, 69, 0, 0, 0, 0, 0, 0, 0, 64, 0, 0, 0, 4, 0, 0, 0, 68, 0, 0, 0, 0] ++
        List.replicate 40 0 ++ [1, 2, 3, 4]) :=
  ⟨rfl, rfl, rfl, rfl⟩

/-- C2 counterexample: the first pass starts its running offset at 0, not at
64, and the symbol installed for the labelled `hlt` holds offset 0 even
though the instruction's bytes sit at absolute offset 64 of the final image
(the image is the 64-byte header followed directly by the 4-byte `hlt`). -/
theorem first_pass_offset_not_absolute :
    getSymbol (Assembler.first_pass Assembler.default progLabelledHalt).1.symbols "foo" =
      some 0 ∧
    (Assembler.first_pass Assembler.default progLabelledHalt).2.1 = 4 ∧
    (Assembler.assemble Assembler.default progLabelledHalt).2 =
      .ok ([69, 80, 73, 69, 0, 0, 0, 0, 0, 0, 0, 64, 0, 0, 0, 0, 0, 0, 0, 64, 0, 0, 0, 4] ++
        List.replicate 40 0 ++ [0, 0, 0, 0]) ∧
    (0 : Nat) ≠ 64 :=
  ⟨rfl, rfl, rfl, by decide⟩

/-- C9 counterexample: `assemble` is not a function of the source text
alone.  Assembling the single-`hlt` program from the default assembler
yields a 68-byte image; assembling the same program again on the assembler
state left behind by that successful call yields a different, 72-byte image
(the retained code section is extended a second time). -/
theorem assemble_reuse_changes_result :
    (Assembler.assemble Assembler.default progHalt).2 =
      .ok ([69, 80, 73, 69, 0, 0, 0, 0, 0, 0, 0, 64, 0, 0, 0, 0, 0, 0, 0, 64, 0, 0, 0, 4] ++
        List.replicate 40 0 ++ [0, 0, 0, 0]) ∧
    (Assembler.assemble (Assembler.assemble Assembler.default progHalt).1 progHalt).2 =
      .ok ([69, 80, 73, 69, 0, 0, 0, 0, 0, 0, 0, 64, 0, 0, 0, 0, 0, 0, 0, 64, 0, 0, 0, 8] ++
        List.replicate 40 0 ++ [0, 0, 0, 0, 0, 0, 0, 0]) ∧
    ([69, 80, 73, 69, 0, 0, 0, 0, 0, 0, 0, 64, 0, 0, 0, 0, 0, 0, 0, 64, 0, 0, 0, 4] ++
        List.replicate 40 0 ++ [0, 0, 0, 0] : List Nat) ≠
      ([69, 80, 73, 69, 0, 0, 0, 0, 0, 0, 0, 64, 0, 0, 0, 0, 0, 0, 0, 64, 0, 0, 0, 8] ++
        List.replicate 40 0 ++ [0, 0, 0, 0, 0, 0, 0, 0]) :=
  ⟨rfl, rfl, by decide⟩

/-- C3 counterexample: in `progInterleaved` the label `x` names the `.byte 1`
item whose byte sits at absolute offset 64 of the final image (the start of
the data section), yet the `ldbd` instruction encodes the label reference
as 68 (= 64 + the pass-1 stream offset 4), because pass-1 offsets count all
preceding items in source order while the image places the whole data
section before the whole code section. -/
theorem label_ref_encoding_not_image_offset :
    getSymbol (Assembler.assemble Assembler.default progInterleaved).1.symbols "x" =
      some 4 ∧
    (Assembler.assemble Assembler.default progInterleaved).2 =
      .ok ([69, 80, 73, 69, 0, 0, 0, 0, 0, 0, 0, 64, 0, 0, 0, 4, 0, 0, 0, 68, 0, 0, 0, 8] ++
        List.replicate 40 0 ++
        [1, 0, 0, 0] ++ [0, 0, 0, 0, 5, 0, 0, 68]) ∧
    beNat [0, 68] = 68 ∧
    (68 : Nat) ≠ 64 :=
  ⟨rfl, rfl, rfl, by decide⟩

/-- C4 counterexample: a pending `.align 8` set immediately before (in
source order) a one-byte `.ascii` is consumed early in pass 1 by an
intervening operand-bearing `.data` directive but survives in pass 2, so
the pass-1 charge for the `.ascii` is `align(1,4) = 4` while pass 2 emits
`align(1,8) = 8` bytes: the two passes do not both charge
`align(payload, a)` for the pending value `a = 8`. -/
theorem directive_sizing_pass_mismatch :
    (firstPassList Assembler.default 0 progAlignDesync).2.1 = 4 ∧
    (Assembler.assemble Assembler.default progAlignDesync).1.data_section =
      [97, 0, 0, 0, 0, 0, 0, 0] ∧
    align 1 8 = 8 ∧
    (4 : Nat) ≠ 8 :=
  ⟨rfl, rfl, rfl, by decide⟩

/-- C5 counterexample: `ldbi $0, 0xFFFF` loads 255 (the low byte,
zero-extended) and `ldhi $0, 0xFFFF` loads 65535, not the sign-extended
value -1 the claim expects for both. -/
theorem load_immediate_counterexample :
    VM.execute_instruction
        { registers := List.replicate 32 0, pc := 0, program := [4, 0, 255, 255],
          code_section_start := 0, remainder := 0, equality_flag := false } =
      some ({ registers := (List.replicate 32 (0 : Int)).set 0 255, pc := 4,
              program := [4, 0, 255, 255], code_section_start := 0, remainder := 0,
              equality_flag := false }, true) ∧
    VM.execute_instruction
        { registers := List.replicate 32 0, pc := 0, program := [8, 0, 255, 255],
          code_section_start := 0, remainder := 0, equality_flag := false } =
      some ({ registers := (List.replicate 32 (0 : Int)).set 0 65535, pc := 4,
              program := [8, 0, 255, 255], code_section_start := 0, remainder := 0,
              equality_flag := false }, true) ∧
    (255 : Int) ≠ -1 ∧ (65535 : Int) ≠ -1 :=
  ⟨rfl, rfl, by decide, by decide⟩

/-- C6 counterexample: `ldbd $0` at an address whose byte is `0xFF` loads
255 into the register — byte loads from the image are zero-extended, not
sign-extended. -/
theorem load_byte_from_address_counterexample :
    VM.execute_instruction
        { registers := List.replicate 32 0, pc := 0, program := [5, 0, 0, 4, 255],
          code_section_start := 0, remainder := 0, equality_flag := false } =
      some ({ registers := (List.replicate 32 (0 : Int)).set 0 255, pc := 4,
              program := [5, 0, 0, 4, 255], code_section_start := 0, remainder := 0,
              equality_flag := false }, true) ∧
    (255 : Int) ≠ -1 :=
  ⟨rfl, by decide⟩

/-- C8 counterexample: `mov $100, $1` assembles without error — the parser
truncates the register number through `u8` and the assembler emits the byte
unchecked — so the encoded instruction carries the register-index byte 100,
which is not below 32. -/
theorem register_byte_out_of_range_assembles :
    parseRegisterByte 100 = 100 ∧
    (Assembler.assemble Assembler.default progRegister100).2 =
      .ok ([69, 80, 73, 69, 0, 0, 0, 0, 0, 0, 0, 64, 0, 0, 0, 0, 0, 0, 0, 64, 0, 0, 0, 4] ++
        List.replicate 40 0 ++ [30, 100, 1, 0]) ∧
    ¬ (100 : Nat) < 32 :=
  ⟨rfl, rfl, by decide⟩

/-- C10: the VM performs no bounds checks beyond `pc < program.len`: a `pc`
at or past the end stops cleanly, but a `pc` within the last three bytes
panics on the 4-byte slice (modelled by `none`), and in-bounds instructions
whose operand addresses (plus access width, or the NUL scan of `prtsd`)
leave the image reach the panic branch as well (`ldbd`/`strwi`/`jmpd` at
address 99 of a 4-byte image; `prtsd` scanning from address 4 of an image
with no NUL from there on). -/
theorem vm_no_bounds_checks :
    (∀ vm : VM, vm.program.length ≤ vm.pc → VM.execute_instruction vm = some (vm, false)) ∧
    (∀ vm : VM, vm.pc < vm.program.length → vm.program.length < vm.pc + 4 →
      VM.execute_instruction vm = none) ∧
    VM.execute_instruction
      { registers := List.replicate 32 0, pc := 0, program := [0],
        code_section_start := 0, remainder := 0, equality_flag := false } = none ∧
    VM.execute_instruction
      { registers := List.replicate 32 0, pc := 0, program := [5, 0, 0, 99],
        code_section_start := 0, remainder := 0, equality_flag := false } = none ∧
    VM.execute_instruction
      { registers := List.replicate 32 0, pc := 0, program := [24, 0, 0, 99],
        code_section_start := 0, remainder := 0, equality_flag := false } = none ∧
    VM.execute_instruction
      { registers := List.replicate 32 0, pc := 0, program := [161, 0, 99, 0],
        code_section_start := 0, remainder := 0, equality_flag := false } = none ∧
    VM.execute_instruction
      { registers := List.replicate 32 0, pc := 0, program := [177, 0, 4, 1, 2, 3, 4, 5],
        code_section_start := 0, remainder := 0, equality_flag := false } = none := by
  refine ⟨?_, ?_, rfl, rfl, rfl, rfl, rfl⟩
  · intro vm h
    unfold VM.execute_instruction
    rw [if_pos h]
  · intro vm h1 h2
    unfold VM.execute_instruction
    rw [if_neg (by omega), if_pos h2]

/-- C10 witness: a machine whose `pc` equals the program length stops
cleanly, by the first clause of `vm_no_bounds_checks`. -/
theorem vm_no_bounds_checks_witness :
    VM.execute_instruction
      { registers := List.replicate 32 0, pc := 2, program := [9, 9],
        code_section_start := 0, remainder := 0, equality_flag := false } =
      some ({ registers := List.replicate 32 0, pc := 2, program := [9, 9],
              code_section_start := 0, remainder := 0, equality_flag := false }, false) :=
  vm_no_bounds_checks.1 _ (by decide)

/-- C8: the second pass copies each `Register` operand byte into the encoded
instruction verbatim — no range check against the register-file size is
performed anywhere between parsing (`number as u8`) and emission, so every
value `0 ≤ r < 256` can appear as an encoded register index. -/
theorem second_pass_register_byte_unchecked (a : Assembler) (op : Opcode) (r s : Nat) :
    secondPassList a [.Opcode ⟨none, op, [.Register r, .Register s]⟩] =
      ({ a with code_section := a.code_section ++ [op.code, r, s, 0] }, none) :=
  rfl

/-- C3: during the second pass a `Label` operand whose name is in the symbol
table is emitted as the big-endian `u16` of `symbol.offset + 64` (the pass-1
stream offset raised by the header length, truncated through `u16`), and a
name absent from the table aborts with `IncorrectOperand`. -/
theorem second_pass_label_ref_encoding (a : Assembler) (op : Opcode) (name : String) :
    (∀ off : Nat, getSymbol a.symbols name = some off →
      secondPassList a [.Opcode ⟨none, op, [.Label name]⟩] =
        ({ a with code_section :=
            a.code_section ++ op.code :: (u16be ((off % 65536 + 64) % 65536) ++ [0]) }, none)) ∧
    (getSymbol a.symbols name = none →
      secondPassList a [.Opcode ⟨none, op, [.Label name]⟩] =
        (a, some AssemblerError.IncorrectOperand)) := by
  constructor
  · intro off h
    simp only [secondPassList, encodeOperands, encodeOperand, h]
    rfl
  · intro h
    simp only [secondPassList, encodeOperands, encodeOperand, h]
    rfl

/-- C3 witness: with `x` bound to offset 4 the label reference is encoded as
`0x0044 = 68` (big-endian `[0, 68]`), and with an empty symbol table the
same instruction yields `IncorrectOperand`. -/
theorem second_pass_label_ref_encoding_witness :
    secondPassList { Assembler.default with symbols := [("x", 4)] }
        [.Opcode ⟨none, .JMPD, [.Label "x"]⟩] =
      ({ data_section := [], code_section := [161, 0, 68, 0], symbols := [("x", 4)],
         current_section := none, next_alignment := none }, none) ∧
    secondPassList Assembler.default [.Opcode ⟨none, .JMPD, [.Label "x"]⟩] =
      (Assembler.default, some AssemblerError.IncorrectOperand) :=
  ⟨(second_pass_label_ref_encoding { Assembler.default with symbols := [("x", 4)] }
      .JMPD "x").1 4 rfl,
   (second_pass_label_ref_encoding Assembler.default .JMPD "x").2 rfl⟩

/-- C5: the load-immediate byte and half-word instructions zero-extend: the
`ldbi` arm casts the immediate through `u8` (never producing a negative
value, always below 256) and the `ldhi` arm casts the `u16` directly to
`i32` (never negative, always below 65536); neither goes through a signed
width. -/
theorem load_immediate_zero_extends :
    (∀ (vm : VM) (r b2 b3 : Nat),
      vm.pc + 4 ≤ vm.program.length →
      vm.program.getD vm.pc 0 = 4 →
      vm.program.getD (vm.pc + 1) 0 = r →
      vm.program.getD (vm.pc + 2) 0 = b2 →
      vm.program.getD (vm.pc + 3) 0 = b3 →
      r < vm.registers.length →
      VM.execute_instruction vm =
        some ({ vm with
          pc := vm.pc + 4,
          registers := vm.registers.set r (((b2 * 256 + b3) % 65536 % 256 : Nat) : Int) },
          true) ∧
      (0 : Int) ≤ (((b2 * 256 + b3) % 65536 % 256 : Nat) : Int) ∧
      (((b2 * 256 + b3) % 65536 % 256 : Nat) : Int) < 256) ∧
    (∀ (vm : VM) (r b2 b3 : Nat),
      vm.pc + 4 ≤ vm.program.length →
      vm.program.getD vm.pc 0 = 8 →
      vm.program.getD (vm.pc + 1) 0 = r →
      vm.program.getD (vm.pc + 2) 0 = b2 →
      vm.program.getD (vm.pc + 3) 0 = b3 →
      r < vm.registers.length →
      VM.execute_instruction vm =
        some ({ vm with
          pc := vm.pc + 4,
          registers := vm.registers.set r (((b2 * 256 + b3) % 65536 : Nat) : Int) },
          true) ∧
      (0 : Int) ≤ (((b2 * 256 + b3) % 65536 : Nat) : Int) ∧
      (((b2 * 256 + b3) % 65536 : Nat) : Int) < 65536) := by
  constructor
  · intro vm r b2 b3 hlen h0 h1 h2 h3 hr
    refine ⟨?_, by omega, by omega⟩
    unfold VM.execute_instruction
    rw [if_neg (by omega), if_neg (by omega), h0, h1, h2, h3]
    simp only [sharedOpcodeFromU8, execArm, writeReg]
    rw [if_pos (by simpa using hr)]
    rfl
  · intro vm r b2 b3 hlen h0 h1 h2 h3 hr
    refine ⟨?_, by omega, by omega⟩
    unfold VM.execute_instruction
    rw [if_neg (by omega), if_neg (by omega), h0, h1, h2, h3]
    simp only [sharedOpcodeFromU8, execArm, writeReg]
    rw [if_pos (by simpa using hr)]
    rfl

/-- C5 witness: `ldbi $0, 0x01FF` loads 255 and `ldhi $0, 0x01FF` loads
511, both nonnegative. -/
theorem load_immediate_zero_extends_witness :
    (VM.execute_instruction
        { registers := List.replicate 32 0, pc := 0, program := [4, 0, 1, 255],
          code_section_start := 0, remainder := 0, equality_flag := false } =
      some ({ registers := (List.replicate 32 (0 : Int)).set 0 (((1 * 256 + 255) % 65536 % 256 : Nat) : Int),
              pc := 4, program := [4, 0, 1, 255], code_section_start := 0, remainder := 0,
              equality_flag := false }, true) ∧
      (0 : Int) ≤ (((1 * 256 + 255) % 65536 % 256 : Nat) : Int) ∧
      (((1 * 256 + 255) % 65536 % 256 : Nat) : Int) < 256) ∧
    (VM.execute_instruction
        { registers := List.replicate 32 0, pc := 0, program := [8, 0, 1, 255],
          code_section_start := 0, remainder := 0, equality_flag := false } =
      some ({ registers := (List.replicate 32 (0 : Int)).set 0 (((1 * 256 + 255) % 65536 : Nat) : Int),
              pc := 4, program := [8, 0, 1, 255], code_section_start := 0, remainder := 0,
              equality_flag := false }, true) ∧
      (0 : Int) ≤ (((1 * 256 + 255) % 65536 : Nat) : Int) ∧
      (((1 * 256 + 255) % 65536 : Nat) : Int) < 65536) :=
  ⟨load_immediate_zero_extends.1
      { registers := List.replicate 32 0, pc := 0, program := [4, 0, 1, 255],
        code_section_start := 0, remainder := 0, equality_flag := false }
      0 1 255 (by decide) rfl rfl rfl rfl (by decide),
   load_immediate_zero_extends.2
      { registers := List.replicate 32 0, pc := 0, program := [8, 0, 1, 255],
        code_section_start := 0, remainder := 0, equality_flag := false }
      0 1 255 (by decide) rfl rfl rfl rfl (by decide)⟩

/-- C6: loads from a program-image address extend according to width, but
not uniformly by sign: `ldbd` stores the byte cast straight from `u8` to
`i32` (zero-extension, always in `[0, 256)`), `ldhd` goes through
`i16::from_be_bytes` (sign-extension into `[-32768, 32768)`), and `ldwd`
reads the four bytes as an `i32`. -/
theorem load_from_address_extension :
    (∀ (vm : VM) (r b2 b3 byte : Nat),
      vm.pc + 4 ≤ vm.program.length →
      vm.program.getD vm.pc 0 = 5 →
      vm.program.getD (vm.pc + 1) 0 = r →
      vm.program.getD (vm.pc + 2) 0 = b2 →
      vm.program.getD (vm.pc + 3) 0 = b3 →
      r < vm.registers.length →
      vm.program.get? ((b2 * 256 + b3) % 65536) = some byte →
      byte < 256 →
      VM.execute_instruction vm =
        some ({ vm with
          pc := vm.pc + 4,
          registers := vm.registers.set r (byte : Int) }, true) ∧
      (0 : Int) ≤ (byte : Int) ∧ (byte : Int) < 256) ∧
    (∀ (vm : VM) (r b2 b3 x0 x1 : Nat),
      vm.pc + 4 ≤ vm.program.length →
      vm.program.getD vm.pc 0 = 9 →
      vm.program.getD (vm.pc + 1) 0 = r →
      vm.program.getD (vm.pc + 2) 0 = b2 →
      vm.program.getD (vm.pc + 3) 0 = b3 →
      r < vm.registers.length →
      vm.program.get? ((b2 * 256 + b3) % 65536) = some x0 →
      vm.program.get? ((b2 * 256 + b3) % 65536 + 1) = some x1 →
      VM.execute_instruction vm =
        some ({ vm with
          pc := vm.pc + 4,
          registers := vm.registers.set r (i16FromBeBytes x0 x1) }, true) ∧
      (-32768 : Int) ≤ i16FromBeBytes x0 x1 ∧ i16FromBeBytes x0 x1 < 32768) ∧
    (∀ (vm : VM) (r b2 b3 x0 x1 x2 x3 : Nat),
      vm.pc + 4 ≤ vm.program.length →
      vm.program.getD vm.pc 0 = 13 →
      vm.program.getD (vm.pc + 1) 0 = r →
      vm.program.getD (vm.pc + 2) 0 = b2 →
      vm.program.getD (vm.pc + 3) 0 = b3 →
      r < vm.registers.length →
      vm.program.get? ((b2 * 256 + b3) % 65536) = some x0 →
      vm.program.get? ((b2 * 256 + b3) % 65536 + 1) = some x1 →
      vm.program.get? ((b2 * 256 + b3) % 65536 + 2) = some x2 →
      vm.program.get? ((b2 * 256 + b3) % 65536 + 3) = some x3 →
      VM.execute_instruction vm =
        some ({ vm with
          pc := vm.pc + 4,
          registers := vm.registers.set r (i32FromBeBytes x0 x1 x2 x3) }, true) ∧
      (-2147483648 : Int) ≤ i32FromBeBytes x0 x1 x2 x3 ∧
        i32FromBeBytes x0 x1 x2 x3 < 2147483648) := by
  refine ⟨?_, ?_, ?_⟩
  · intro vm r b2 b3 byte hlen h0 h1 h2 h3 hr hb hb256
    refine ⟨?_, by omega, by omega⟩
    unfold VM.execute_instruction
    rw [if_neg (by omega), if_neg (by omega), h0, h1, h2, h3]
    simp only [execArm, sharedOpcodeFromU8, readByte, writeReg, hb, Option.some_bind]
    simp [hr]
  · intro vm r b2 b3 x0 x1 hlen h0 h1 h2 h3 hr hx0 hx1
    refine ⟨?_, ?_, ?_⟩
    · unfold VM.execute_instruction
      rw [if_neg (by omega), if_neg (by omega), h0, h1, h2, h3]
      simp only [execArm, sharedOpcodeFromU8, readByte, writeReg, hx0, hx1, Option.some_bind]
      simp [hr]
    · unfold i16FromBeBytes
      dsimp only
      split <;> omega
    · unfold i16FromBeBytes
      dsimp only
      split <;> omega
  · intro vm r b2 b3 x0 x1 x2 x3 hlen h0 h1 h2 h3 hr hx0 hx1 hx2 hx3
    refine ⟨?_, ?_, ?_⟩
    · unfold VM.execute_instruction
      rw [if_neg (by omega), if_neg (by omega), h0, h1, h2, h3]
      simp only [execArm, sharedOpcodeFromU8, readByte, writeReg, hx0, hx1, hx2, hx3,
        Option.some_bind]
      simp [hr]
    · unfold i32FromBeBytes
      dsimp only
      split <;> omega
    · unfold i32FromBeBytes
      dsimp only
      split <;> omega

/-- C6 witness: on the image `[5,0,0,4,255]` the byte load from address 4
yields 255; on `[9,0,0,4,255,1]` the half-word load of `0xFF01` yields
-255; on `[13,0,0,4,255,0,0,1]` the word load of `0xFF000001` yields
-16777215. -/
theorem load_from_address_extension_witness :
    (VM.execute_instruction
        { registers := List.replicate 32 0, pc := 0, program := [5, 0, 0, 4, 255],
          code_section_start := 0, remainder := 0, equality_flag := false } =
      some ({ registers := (List.replicate 32 (0 : Int)).set 0 ((255 : Nat) : Int), pc := 4,
              program := [5, 0, 0, 4, 255], code_section_start := 0, remainder := 0,
              equality_flag := false }, true) ∧
      (0 : Int) ≤ ((255 : Nat) : Int) ∧ ((255 : Nat) : Int) < 256) ∧
    (VM.execute_instruction
        { registers := List.replicate 32 0, pc := 0, program := [9, 0, 0, 4, 255, 1],
          code_section_start := 0, remainder := 0, equality_flag := false } =
      some ({ registers := (List.replicate 32 (0 : Int)).set 0 (i16FromBeBytes 255 1), pc := 4,
              program := [9, 0, 0, 4, 255, 1], code_section_start := 0, remainder := 0,
              equality_flag := false }, true) ∧
      (-32768 : Int) ≤ i16FromBeBytes 255 1 ∧ i16FromBeBytes 255 1 < 32768) ∧
    (VM.execute_instruction
        { registers := List.replicate 32 0, pc := 0, program := [13, 0, 0, 4, 255, 0, 0, 1],
          code_section_start := 0, remainder := 0, equality_flag := false } =
      some ({ registers := (List.replicate 32 (0 : Int)).set 0 (i32FromBeBytes 255 0 0 1),
              pc := 4, program := [13, 0, 0, 4, 255, 0, 0, 1], code_section_start := 0,
              remainder := 0, equality_flag := false }, true) ∧
      (-2147483648 : Int) ≤ i32FromBeBytes 255 0 0 1 ∧
        i32FromBeBytes 255 0 0 1 < 2147483648) :=
  ⟨load_from_address_extension.1
      { registers := List.replicate 32 0, pc := 0, program := [5, 0, 0, 4, 255],
        code_section_start := 0, remainder := 0, equality_flag := false }
      0 0 4 255 (by decide) rfl rfl rfl rfl (by decide) rfl (by decide),
   load_from_address_extension.2.1
      { registers := List.replicate 32 0, pc := 0, program := [9, 0, 0, 4, 255, 1],
        code_section_start := 0, remainder := 0, equality_flag := false }
      0 0 4 255 1 (by decide) rfl rfl rfl rfl (by decide) rfl rfl,
   load_from_address_extension.2.2
      { registers := List.replicate 32 0, pc := 0, program := [13, 0, 0, 4, 255, 0, 0, 1],
        code_section_start := 0, remainder := 0, equality_flag := false }
      0 0 4 255 0 0 1 (by decide) rfl rfl rfl rfl (by decide) rfl rfl rfl rfl⟩

/-- The first-pass directive handler never writes to either output
section. -/
theorem handleDirectiveFirstPass_sections (a : Assembler) (off : Nat)
    (d : DirectiveInstruction) :
    (handleDirectiveFirstPass a off d).1.data_section = a.data_section ∧
    (handleDirectiveFirstPass a off d).1.code_section = a.code_section := by
  unfold handleDirectiveFirstPass
  split
  · exact ⟨rfl, rfl⟩
  split
  · exact ⟨rfl, rfl⟩
  repeat' split
  all_goals simp_all

/-- C9: the first pass is pure symbol collection — whatever instruction list
it walks and whatever state it starts from, it leaves both output buffers
exactly as it found them, so a run that fails during pass 1 produces no
partial section output.  (The buffers do persist across calls, which is
what makes reuse of an assembler observable.) -/
theorem first_pass_preserves_sections (prog : List AssemblerInstruction) :
    ∀ (a : Assembler) (off : Nat),
      (firstPassList a off prog).1.data_section = a.data_section ∧
      (firstPassList a off prog).1.code_section = a.code_section := by
  induction prog with
  | nil => intro a off; exact ⟨rfl, rfl⟩
  | cons i rest ih =>
    intro a off
    cases i with
    | Opcode oi =>
      cases hl : oi.label with
      | none => simpa [firstPassList, hl] using ih a (off + 4)
      | some name =>
        by_cases hc : a.current_section = none
        · simp [firstPassList, hl, hc]
        · rcases hg : getSymbol a.symbols name with _ | v
          · have h2 : firstPassList a off (AssemblerInstruction.Opcode oi :: rest) =
                firstPassList { a with symbols := (name, off) :: a.symbols } (off + 4) rest := by
              simp [firstPassList, hl, hc, addSymbol, hg]
            rw [h2]
            exact ih _ (off + 4)
          · simp [firstPassList, hl, hc, addSymbol, hg]
    | Directive d =>
      rcases hd : handleDirectiveFirstPass a off d with ⟨a1, off1, e1⟩
      have hs := handleDirectiveFirstPass_sections a off d
      rw [hd] at hs
      cases e1 with
      | none =>
        have := ih a1 off1
        simp only [firstPassList, hd]
        exact ⟨this.1.trans hs.1, this.2.trans hs.2⟩
      | some e =>
        simp only [firstPassList, hd]
        exact hs

/-- Lookup in a shifted symbol table finds the shifted offset. -/
theorem lookup_shiftSyms (k : Nat) (t : SymbolTable) (n : String) :
    (shiftSyms k t).lookup n = (t.lookup n).map (· + k) := by
  induction t with
  | nil => rfl
  | cons p t ih =>
    cases p with
    | mk key v =>
      simp only [shiftSyms, List.map_cons, List.lookup] at ih ⊢
      cases h : n == key <;> simp [h, ih]

/-- `getSymbol` on a shifted table. -/
theorem getSymbol_shiftSyms (k : Nat) (t : SymbolTable) (n : String) :
    getSymbol (shiftSyms k t) n = (getSymbol t n).map (· + k) := by
  simp [getSymbol, lookup_shiftSyms]

/-- `getSymbol` after mapping the shift over the table (the unfolded form
of `shiftSyms`). -/
theorem getSymbol_mapShift (k : Nat) (t : SymbolTable) (n : String) :
    getSymbol (t.map fun p => (p.1, p.2 + k)) n = (getSymbol t n).map (· + k) := by
  simpa [shiftSyms] using getSymbol_shiftSyms k t n

/-- Running the first-pass directive handler from an offset raised by `k`
(with a correspondingly shifted symbol table) shifts every recorded offset
and the returned running offset by `k` and leaves everything else — the
error, the sections, the section register and the pending alignment —
unchanged. -/
theorem handleDirectiveFirstPass_shift (k : Nat) (a : Assembler) (off : Nat)
    (d : DirectiveInstruction) :
    handleDirectiveFirstPass { a with symbols := shiftSyms k a.symbols } (off + k) d =
      ({ (handleDirectiveFirstPass a off d).1 with
          symbols := shiftSyms k (handleDirectiveFirstPass a off d).1.symbols },
        (handleDirectiveFirstPass a off d).2.1 + k,
        (handleDirectiveFirstPass a off d).2.2) := by
  by_cases h1 : d.operands = []
  · simp [handleDirectiveFirstPass, h1]
  by_cases h2 : a.current_section = none
  · simp [handleDirectiveFirstPass, h1, h2]
  rcases hdir : d.directive with _ | _ | _ | _ | _ | _ | _ | _ | _ | _
  · rcases hop : d.operands.head? with _ | op
    · simp [handleDirectiveFirstPass, h1, h2, hdir, hop]
    · cases op <;> simp [handleDirectiveFirstPass, h1, h2, hdir, hop]
  · rcases hl : d.label with _ | name
    · simp [handleDirectiveFirstPass, h1, h2, hdir, hl, Nat.add_right_comm]
    · rcases hg : getSymbol a.symbols name with _ | v <;>
        simp [handleDirectiveFirstPass, h1, h2, hdir, hl, addSymbol, getSymbol_shiftSyms,
          getSymbol_mapShift, hg, shiftSyms, Nat.add_right_comm]
  · rcases hl : d.label with _ | name
    · simp [handleDirectiveFirstPass, h1, h2, hdir, hl, Nat.add_right_comm]
    · rcases hg : getSymbol a.symbols name with _ | v <;>
        simp [handleDirectiveFirstPass, h1, h2, hdir, hl, addSymbol, getSymbol_shiftSyms,
          getSymbol_mapShift, hg, shiftSyms, Nat.add_right_comm]
  · rcases hl : d.label with _ | name
    · simp [handleDirectiveFirstPass, h1, h2, hdir, hl, Nat.add_right_comm]
    · rcases hg : getSymbol a.symbols name with _ | v <;>
        simp [handleDirectiveFirstPass, h1, h2, hdir, hl, addSymbol, getSymbol_shiftSyms,
          getSymbol_mapShift, hg, shiftSyms, Nat.add_right_comm]
  · rcases hl : d.label with _ | name
    · simp [handleDirectiveFirstPass, h1, h2, hdir, hl, Nat.add_right_comm]
    · rcases hg : getSymbol a.symbols name with _ | v <;>
        simp [handleDirectiveFirstPass, h1, h2, hdir, hl, addSymbol, getSymbol_shiftSyms,
          getSymbol_mapShift, hg, shiftSyms, Nat.add_right_comm]
  · rcases hl : d.label with _ | name
    · simp [handleDirectiveFirstPass, h1, h2, hdir, hl, Nat.add_right_comm]
    · rcases hg : getSymbol a.symbols name with _ | v <;>
        simp [handleDirectiveFirstPass, h1, h2, hdir, hl, addSymbol, getSymbol_shiftSyms,
          getSymbol_mapShift, hg, shiftSyms, Nat.add_right_comm]
  · rcases hl : d.label with _ | name
    · simp [handleDirectiveFirstPass, h1, h2, hdir, hl, Nat.add_right_comm]
    · rcases hg : getSymbol a.symbols name with _ | v <;>
        simp [handleDirectiveFirstPass, h1, h2, hdir, hl, addSymbol, getSymbol_shiftSyms,
          getSymbol_mapShift, hg, shiftSyms, Nat.add_right_comm]
  · simp [handleDirectiveFirstPass, h1, h2, hdir, Nat.add_right_comm]
  · simp [handleDirectiveFirstPass, h1, h2, hdir, Nat.add_right_comm]
  · simp [handleDirectiveFirstPass, h1, h2, hdir, Nat.add_right_comm]

/-- Translation property of the whole first pass: starting the running
offset `k` higher (with a table whose offsets are `k` higher) produces the
same run with every symbol offset and the final offset raised by `k`, and
the same error behaviour. -/
theorem firstPassList_shift (k : Nat) (prog : List AssemblerInstruction) :
    ∀ (a : Assembler) (off : Nat),
      firstPassList { a with symbols := shiftSyms k a.symbols } (off + k) prog =
        ({ (firstPassList a off prog).1 with
            symbols := shiftSyms k (firstPassList a off prog).1.symbols },
          (firstPassList a off prog).2.1 + k,
          (firstPassList a off prog).2.2) := by
  induction prog with
  | nil => intro a off; rfl
  | cons i rest ih =>
    intro a off
    cases i with
    | Opcode oi =>
      cases hl : oi.label with
      | none =>
        simp only [firstPassList, hl]
        rw [Nat.add_right_comm]
        exact ih a (off + 4)
      | some name =>
        by_cases hc : a.current_section = none
        · simp [firstPassList, hl, hc]
        · rcases hg : getSymbol a.symbols name with _ | v
          · have hL : firstPassList { a with symbols := shiftSyms k a.symbols } (off + k)
                (AssemblerInstruction.Opcode oi :: rest) =
                firstPassList { a with symbols := shiftSyms k ((name, off) :: a.symbols) }
                  (off + 4 + k) rest := by
              simp [firstPassList, hl, hc, addSymbol, getSymbol_shiftSyms, getSymbol_mapShift,
                hg, shiftSyms, Nat.add_right_comm]
            have hR : firstPassList a off (AssemblerInstruction.Opcode oi :: rest) =
                firstPassList { a with symbols := (name, off) :: a.symbols } (off + 4) rest := by
              simp [firstPassList, hl, hc, addSymbol, hg]
            rw [hL, hR]
            exact ih { a with symbols := (name, off) :: a.symbols } (off + 4)
          · simp [firstPassList, hl, hc, addSymbol, getSymbol_shiftSyms, getSymbol_mapShift,
              hg, shiftSyms]
    | Directive d =>
      rcases hd : handleDirectiveFirstPass a off d with ⟨a1, off1, e1⟩
      have hsh := handleDirectiveFirstPass_shift k a off d
      rw [hd] at hsh
      cases e1 with
      | none =>
        simp only [firstPassList, hd, hsh]
        exact ih a1 off1
      | some e =>
        simp only [firstPassList, hd, hsh]

/-- C2: pass-1 symbol offsets are header-relative, not absolute.  The code
initialises the running offset to 0 (`Assembler.first_pass`); running the
same pass with the offset initialised to 64 — the header size the claim
asserts — produces exactly the code's symbol table with every offset raised
by 64.  The 64 is added back only at emission time, when a label reference
is encoded. -/
theorem first_pass_offsets_header_relative (prog : List AssemblerInstruction) :
    firstPassList Assembler.default 64 prog =
      ({ (Assembler.first_pass Assembler.default prog).1 with
          symbols := shiftSyms 64 (Assembler.first_pass Assembler.default prog).1.symbols },
        (Assembler.first_pass Assembler.default prog).2.1 + 64,
        (Assembler.first_pass Assembler.default prog).2.2) := by
  have h := firstPassList_shift 64 prog Assembler.default 0
  simpa [Assembler.first_pass, Assembler.default, shiftSyms] using h

/-- A successful `assemble` returns exactly header, data section and code
section concatenated. -/
theorem assemble_ok_image (st : Assembler) (prog : List AssemblerInstruction)
    (a : Assembler) (I : List Nat)
    (h : Assembler.assemble st prog = (a, Except.ok I)) :
    I = createHeader a ++ a.data_section ++ a.code_section := by
  unfold Assembler.assemble at h
  rcases h1 : firstPassList st 0 prog with ⟨a1, off1, e1⟩
  rw [h1] at h
  cases e1 with
  | some e => simp at h
  | none =>
    dsimp only at h
    rcases h2 : secondPassList a1 prog with ⟨a2, e2⟩
    rw [h2] at h
    cases e2 with
    | some e => simp at h
    | none =>
      simp only [Prod.mk.injEq, Except.ok.injEq] at h
      rw [← h.1, ← h.2]

/-- The header is 64 bytes long. -/
theorem createHeader_length (a : Assembler) : (createHeader a).length = 64 := by
  unfold createHeader
  simp [u32be]

/-- C1: for a successful assembly whose section lengths fit the header's
`u32` fields, the image starts with the `EPIE` magic, four zero bytes, and
the four big-endian fields 64, `D`, `64 + D` and `C`, is zero up to byte
64, carries the data section at offset 64 and the code section at offset
`64 + D`, and has total length `64 + D + C`. -/
theorem assemble_header_invariant (st : Assembler) (prog : List AssemblerInstruction)
    (a : Assembler) (I : List Nat)
    (h : Assembler.assemble st prog = (a, Except.ok I))
    (hD : 64 + a.data_section.length < 4294967296)
    (hC : a.code_section.length < 4294967296) :
    I.take 4 = [69, 80, 73, 69] ∧
    (I.drop 4).take 4 = [0, 0, 0, 0] ∧
    beNat ((I.drop 8).take 4) = 64 ∧
    beNat ((I.drop 12).take 4) = a.data_section.length ∧
    beNat ((I.drop 16).take 4) = 64 + a.data_section.length ∧
    beNat ((I.drop 20).take 4) = a.code_section.length ∧
    (I.drop 24).take 40 = List.replicate 40 0 ∧
    (I.drop 64).take a.data_section.length = a.data_section ∧
    I.drop (64 + a.data_section.length) = a.code_section ∧
    I.length = 64 + a.data_section.length + a.code_section.length := by
  have hI := assemble_ok_image st prog a I h
  have e1 : a.data_section.length % 4294967296 = a.data_section.length :=
    Nat.mod_eq_of_lt (by omega)
  have e2 : (64 + a.data_section.length) % 4294967296 = 64 + a.data_section.length :=
    Nat.mod_eq_of_lt (by omega)
  have e3 : a.code_section.length % 4294967296 = a.code_section.length :=
    Nat.mod_eq_of_lt (by omega)
  have hhdr : createHeader a =
      [69, 80, 73, 69, 0, 0, 0, 0] ++ u32be 64 ++ u32be a.data_section.length ++
        u32be (64 + a.data_section.length) ++ u32be a.code_section.length ++
        List.replicate 40 0 := by
    unfold createHeader
    rw [e1, e2, e3]
    simp [u32be]
  have hIc : I =
      69 :: 80 :: 73 :: 69 :: 0 :: 0 :: 0 :: 0 ::
        (u32be 64 ++ (u32be a.data_section.length ++ (u32be (64 + a.data_section.length) ++
          (u32be a.code_section.length ++ (List.replicate 40 0 ++
            (a.data_section ++ a.code_section)))))) := by
    rw [hI, hhdr]
    simp
  have hIg : I = createHeader a ++ (a.data_section ++ a.code_section) := by
    rw [hI, List.append_assoc]
  have hdrop64 : I.drop 64 = a.data_section ++ a.code_section := by
    rw [hIg]
    exact List.drop_left' (createHeader_length a)
  refine ⟨?_, ?_, ?_, ?_, ?_, ?_, ?_, ?_, ?_, ?_⟩
  · rw [hIc]; rfl
  · rw [hIc]; rfl
  · rw [hIc]; rfl
  · rw [hIc]
    show beNat (u32be a.data_section.length) = a.data_section.length
    simp only [beNat, u32be, List.foldl]
    omega
  · rw [hIc]
    show beNat (u32be (64 + a.data_section.length)) = 64 + a.data_section.length
    simp only [beNat, u32be, List.foldl]
    omega
  · rw [hIc]
    show beNat (u32be a.code_section.length) = a.code_section.length
    simp only [beNat, u32be, List.foldl]
    omega
  · rw [hIc]
    show (List.replicate 40 0 ++ (a.data_section ++ a.code_section)).take 40 =
      List.replicate 40 (0 : Nat)
    exact List.take_left' (by simp)
  · rw [hdrop64]
    exact List.take_left a.data_section a.code_section
  · have : I.drop (64 + a.data_section.length) =
        (I.drop 64).drop a.data_section.length := by
      rw [List.drop_drop]
    rw [this, hdrop64]
    exact List.drop_left a.data_section a.code_section
  · rw [hIg]
    simp [createHeader_length, Nat.add_assoc]

/-- C1 witness: the single-`hlt` program assembles to a 68-byte image with
`D = 0` and `C = 4`, satisfying every header field. -/
theorem assemble_header_invariant_witness :
    List.take 4
        ([69, 80, 73, 69, 0, 0, 0, 0, 0, 0, 0, 64, 0, 0, 0, 0, 0, 0, 0, 64, 0, 0, 0, 4] ++
          List.replicate 40 0 ++ ([0, 0, 0, 0] : List Nat)) = [69, 80, 73, 69] ∧
    beNat
        (List.take 4
          (List.drop 16
            ([69, 80, 73, 69, 0, 0, 0, 0, 0, 0, 0, 64, 0, 0, 0, 0, 0, 0, 0, 64, 0, 0, 0, 4] ++
              List.replicate 40 0 ++ ([0, 0, 0, 0] : List Nat)))) =
      64 + (Assembler.assemble Assembler.default progHalt).1.data_section.length :=
  ⟨(assemble_header_invariant Assembler.default progHalt
      (Assembler.assemble Assembler.default progHalt).1
      ([69, 80, 73, 69, 0, 0, 0, 0, 0, 0, 0, 64, 0, 0, 0, 0, 0, 0, 0, 64, 0, 0, 0, 4] ++
        List.replicate 40 0 ++ [0, 0, 0, 0])
      (by rfl) (by decide) (by decide)).1,
   (assemble_header_invariant Assembler.default progHalt
      (Assembler.assemble Assembler.default progHalt).1
      ([69, 80, 73, 69, 0, 0, 0, 0, 0, 0, 0, 64, 0, 0, 0, 0, 0, 0, 0, 64, 0, 0, 0, 4] ++
        List.replicate 40 0 ++ [0, 0, 0, 0])
      (by rfl) (by decide) (by decide)).2.2.2.2.1⟩

/-- `align` never rounds below its input (for a positive alignment). -/
theorem le_align (v a : Nat) (h : 0 < a) : v ≤ align v a := by
  have hdm : a * ((v + a - 1) / a) + (v + a - 1) % a = v + a - 1 := Nat.div_add_mod _ _
  have hlt : (v + a - 1) % a < a := Nat.mod_lt _ h
  unfold align
  rw [Nat.mul_comm]
  set x := a * ((v + a - 1) / a) with hx
  omega

/-- `aligned_bytes` is the payload padded with zeros up to `size`, whenever
the payload does not exceed `size`. -/
theorem aligned_bytes_eq_pad (d : DirectiveInstruction) (p : Option Nat)
    (h : (directivePayload d).length ≤ d.size p) :
    d.aligned_bytes p =
      some (directivePayload d ++
        List.replicate (d.size p - (directivePayload d).length) 0) := by
  unfold DirectiveInstruction.aligned_bytes
  by_cases hlt : (directivePayload d).length < d.size p
  · simp [hlt]
  · have he : d.size p = (directivePayload d).length := by omega
    simp [hlt, he]

/-- Counting `Value` operands of a pure value list. -/
theorem countValues_map_value (vs : List Int) :
    countValues (vs.map Operand.Value) = vs.length := by
  induction vs with
  | nil => rfl
  | cons v vs ih => simpa [countValues] using ih

/-- The `.byte` payload of a pure value list. -/
theorem payload_byte (l : Option String) (vs : List Int) :
    directivePayload ⟨l, .Byte, vs.map Operand.Value⟩ = vs.map u8OfInt := by
  induction vs with
  | nil => rfl
  | cons v vs ih => simpa [directivePayload] using ih

/-- The `.half` payload of a pure value list. -/
theorem payload_half (l : Option String) (vs : List Int) :
    directivePayload ⟨l, .Half, vs.map Operand.Value⟩ =
      (vs.map fun v => u16be (u16OfInt v)).flatten := by
  induction vs with
  | nil => rfl
  | cons v vs ih => simpa [directivePayload] using ih

/-- The `.word` payload of a pure value list. -/
theorem payload_word (l : Option String) (vs : List Int) :
    directivePayload ⟨l, .Word, vs.map Operand.Value⟩ =
      (vs.map fun v => u32be (u32OfInt v)).flatten := by
  induction vs with
  | nil => rfl
  | cons v vs ih => simpa [directivePayload] using ih

/-- Length of the flattened `.half` payload. -/
theorem length_half_payload (vs : List Int) :
    ((vs.map fun v => u16be (u16OfInt v)).flatten).length = vs.length * 2 := by
  induction vs with
  | nil => rfl
  | cons v vs ih =>
    simp only [List.map_cons, List.flatten_cons, List.length_append, ih]
    simp only [u16be, List.length_cons, List.length_nil]
    omega

/-- Length of the flattened `.word` payload. -/
theorem length_word_payload (vs : List Int) :
    ((vs.map fun v => u32be (u32OfInt v)).flatten).length = vs.length * 4 := by
  induction vs with
  | nil => rfl
  | cons v vs ih =>
    simp only [List.map_cons, List.flatten_cons, List.length_append, ih]
    simp only [u32be, List.length_cons, List.length_nil]
    omega

/-- C4: per-pass sizing and emission of the sized data directives.  With `a`
the pending alignment the pass holds (default 4): `.ascii` charges
`align(len s, a)` and emits `s` zero-padded to that size; `.asciiz` the same
for `s` plus a NUL; `.byte`/`.half`/`.word` charge `align(n·w, a)` and emit
the values truncated to their width in big-endian argument order,
zero-padded; `.space n` charges and emits exactly `n` zero bytes with no
rounding.  Pass 1 advances its offset by exactly `size` and consumes the
pending alignment; pass 2 (here under `.data`) appends exactly
`aligned_bytes` and consumes the pending alignment. -/
theorem directive_sizing_rules :
    (∀ (l : Option String) (s : List Nat) (rest : List Operand) (p : Option Nat),
      0 < p.getD 4 →
      (⟨l, .Ascii, .String s :: rest⟩ : DirectiveInstruction).size p =
        align s.length (p.getD 4) ∧
      (⟨l, .Ascii, .String s :: rest⟩ : DirectiveInstruction).aligned_bytes p =
        some (s ++ List.replicate (align s.length (p.getD 4) - s.length) 0)) ∧
    (∀ (l : Option String) (s : List Nat) (rest : List Operand) (p : Option Nat),
      0 < p.getD 4 →
      (⟨l, .Asciiz, .String s :: rest⟩ : DirectiveInstruction).size p =
        align (s.length + 1) (p.getD 4) ∧
      (⟨l, .Asciiz, .String s :: rest⟩ : DirectiveInstruction).aligned_bytes p =
        some ((s ++ [0]) ++
          List.replicate (align (s.length + 1) (p.getD 4) - (s.length + 1)) 0)) ∧
    (∀ (l : Option String) (vs : List Int) (p : Option Nat),
      0 < p.getD 4 →
      (⟨l, .Byte, vs.map Operand.Value⟩ : DirectiveInstruction).size p =
        align vs.length (p.getD 4) ∧
      (⟨l, .Byte, vs.map Operand.Value⟩ : DirectiveInstruction).aligned_bytes p =
        some (vs.map u8OfInt ++
          List.replicate (align vs.length (p.getD 4) - vs.length) 0)) ∧
    (∀ (l : Option String) (vs : List Int) (p : Option Nat),
      0 < p.getD 4 →
      (⟨l, .Half, vs.map Operand.Value⟩ : DirectiveInstruction).size p =
        align (vs.length * 2) (p.getD 4) ∧
      (⟨l, .Half, vs.map Operand.Value⟩ : DirectiveInstruction).aligned_bytes p =
        some ((vs.map fun v => u16be (u16OfInt v)).flatten ++
          List.replicate (align (vs.length * 2) (p.getD 4) - vs.length * 2) 0)) ∧
    (∀ (l : Option String) (vs : List Int) (p : Option Nat),
      0 < p.getD 4 →
      (⟨l, .Word, vs.map Operand.Value⟩ : DirectiveInstruction).size p =
        align (vs.length * 4) (p.getD 4) ∧
      (⟨l, .Word, vs.map Operand.Value⟩ : DirectiveInstruction).aligned_bytes p =
        some ((vs.map fun v => u32be (u32OfInt v)).flatten ++
          List.replicate (align (vs.length * 4) (p.getD 4) - vs.length * 4) 0)) ∧
    (∀ (l : Option String) (n : Int) (rest : List Operand) (p : Option Nat),
      0 ≤ n → n < 2147483648 →
      (⟨l, .Space, .Value n :: rest⟩ : DirectiveInstruction).size p = n.toNat ∧
      (⟨l, .Space, .Value n :: rest⟩ : DirectiveInstruction).aligned_bytes p =
        some (List.replicate n.toNat 0)) ∧
    (∀ (a : Assembler) (off : Nat) (d : DirectiveInstruction) (sec : AssemblerSection),
      IsSizedDirective d.directive → d.label = none → d.operands ≠ [] →
      handleDirectiveFirstPass { a with current_section := some sec } off d =
        ({ a with current_section := some sec, next_alignment := none },
          off + d.size a.next_alignment, none)) ∧
    (∀ (a : Assembler) (d : DirectiveInstruction) (bs : List Nat),
      IsSizedDirective d.directive → d.operands ≠ [] →
      a.current_section = some AssemblerSection.Data →
      d.aligned_bytes a.next_alignment = some bs →
      handleDirectiveSecondPass a d =
        ({ a with data_section := a.data_section ++ bs, next_alignment := none }, none)) := by
  refine ⟨?_, ?_, ?_, ?_, ?_, ?_, ?_, ?_⟩
  · intro l s rest p hp
    have hsz : (⟨l, .Ascii, .String s :: rest⟩ : DirectiveInstruction).size p =
        align s.length (p.getD 4) := by
      simp [DirectiveInstruction.size]
    have hpl : directivePayload ⟨l, .Ascii, .String s :: rest⟩ = s := by
      simp [directivePayload]
    refine ⟨hsz, ?_⟩
    rw [aligned_bytes_eq_pad _ _ (by rw [hsz, hpl]; exact le_align _ _ hp), hsz, hpl]
  · intro l s rest p hp
    have hsz : (⟨l, .Asciiz, .String s :: rest⟩ : DirectiveInstruction).size p =
        align (s.length + 1) (p.getD 4) := by
      simp [DirectiveInstruction.size]
    have hpl : directivePayload ⟨l, .Asciiz, .String s :: rest⟩ = s ++ [0] := by
      simp [directivePayload]
    refine ⟨hsz, ?_⟩
    rw [aligned_bytes_eq_pad _ _ (by rw [hsz, hpl]; simpa using le_align _ _ hp), hsz, hpl]
    simp
  · intro l vs p hp
    have hsz : (⟨l, .Byte, vs.map Operand.Value⟩ : DirectiveInstruction).size p =
        align vs.length (p.getD 4) := by
      simp [DirectiveInstruction.size, countValues_map_value]
    refine ⟨hsz, ?_⟩
    rw [aligned_bytes_eq_pad _ _
        (by rw [hsz, payload_byte]; simpa using le_align _ _ hp),
      hsz, payload_byte]
    simp
  · intro l vs p hp
    have hsz : (⟨l, .Half, vs.map Operand.Value⟩ : DirectiveInstruction).size p =
        align (vs.length * 2) (p.getD 4) := by
      simp [DirectiveInstruction.size, countValues_map_value]
    refine ⟨hsz, ?_⟩
    rw [aligned_bytes_eq_pad _ _
        (by rw [hsz, payload_half, length_half_payload]; exact le_align _ _ hp),
      hsz, payload_half, length_half_payload]
  · intro l vs p hp
    have hsz : (⟨l, .Word, vs.map Operand.Value⟩ : DirectiveInstruction).size p =
        align (vs.length * 4) (p.getD 4) := by
      simp [DirectiveInstruction.size, countValues_map_value]
    refine ⟨hsz, ?_⟩
    rw [aligned_bytes_eq_pad _ _
        (by rw [hsz, payload_word, length_word_payload]; exact le_align _ _ hp),
      hsz, payload_word, length_word_payload]
  · intro l n rest p h0 h1
    have hsz : (⟨l, .Space, .Value n :: rest⟩ : DirectiveInstruction).size p = n.toNat := by
      have : n % 18446744073709551616 = n := Int.emod_eq_of_lt h0 (by omega)
      simp [DirectiveInstruction.size, usizeOfInt, this]
    have hpl : directivePayload ⟨l, .Space, .Value n :: rest⟩ = [] := by
      simp [directivePayload]
    refine ⟨hsz, ?_⟩
    rw [aligned_bytes_eq_pad _ _ (by rw [hsz, hpl]; simp), hsz, hpl]
    simp
  · intro a off d sec hsz hl hop
    rcases hsz with h | h | h | h | h | h <;>
      simp [handleDirectiveFirstPass, hop, h, hl]
  · intro a d bs hsz hop hsec hbs
    rcases hsz with h | h | h | h | h | h <;>
      simp [handleDirectiveSecondPass, hop, h, hsec, hbs]

/-- C4 witness: concrete instances of every clause — `.ascii "ab"` under
`.align 8` gives 8 bytes, `.asciiz "ab"` the same, `.byte 1,2` gives 4,
`.half 300` under `.align 2` gives `[1, 44]`, `.word 1` gives 4 bytes,
`.space 6` gives 6 zeros despite a pending `.align 8`, and the two pass
handlers charge/emit exactly those bytes. -/
theorem directive_sizing_rules_witness :
    ((⟨none, .Ascii, [Operand.String [97, 98]]⟩ : DirectiveInstruction).size (some 8) = 8 ∧
      (⟨none, .Ascii, [Operand.String [97, 98]]⟩ : DirectiveInstruction).aligned_bytes
          (some 8) =
        some [97, 98, 0, 0, 0, 0, 0, 0]) ∧
    ((⟨none, .Asciiz, [Operand.String [97, 98]]⟩ : DirectiveInstruction).size (some 8) = 8 ∧
      (⟨none, .Asciiz, [Operand.String [97, 98]]⟩ : DirectiveInstruction).aligned_bytes
          (some 8) =
        some [97, 98, 0, 0, 0, 0, 0, 0]) ∧
    ((⟨none, .Byte, [Operand.Value 1, Operand.Value 2]⟩ : DirectiveInstruction).size none =
        4 ∧
      (⟨none, .Byte, [Operand.Value 1, Operand.Value 2]⟩ : DirectiveInstruction).aligned_bytes
          none =
        some [1, 2, 0, 0]) ∧
    ((⟨none, .Half, [Operand.Value 300]⟩ : DirectiveInstruction).size (some 2) = 2 ∧
      (⟨none, .Half, [Operand.Value 300]⟩ : DirectiveInstruction).aligned_bytes (some 2) =
        some [1, 44]) ∧
    ((⟨none, .Word, [Operand.Value 1]⟩ : DirectiveInstruction).size none = 4 ∧
      (⟨none, .Word, [Operand.Value 1]⟩ : DirectiveInstruction).aligned_bytes none =
        some [0, 0, 0, 1]) ∧
    ((⟨none, .Space, [Operand.Value 6]⟩ : DirectiveInstruction).size (some 8) = 6 ∧
      (⟨none, .Space, [Operand.Value 6]⟩ : DirectiveInstruction).aligned_bytes (some 8) =
        some (List.replicate 6 0)) ∧
    handleDirectiveFirstPass
        { Assembler.default with current_section := some AssemblerSection.Data } 0
        ⟨none, .Byte, [Operand.Value 1]⟩ =
      ({ Assembler.default with
          current_section := some AssemblerSection.Data, next_alignment := none }, 4, none) ∧
    handleDirectiveSecondPass
        { Assembler.default with current_section := some AssemblerSection.Data }
        ⟨none, .Byte, [Operand.Value 1]⟩ =
      ({ Assembler.default with
          current_section := some AssemblerSection.Data,
          data_section := [1, 0, 0, 0], next_alignment := none }, none) :=
  ⟨directive_sizing_rules.1 none [97, 98] [] (some 8) (by decide),
   directive_sizing_rules.2.1 none [97, 98] [] (some 8) (by decide),
   directive_sizing_rules.2.2.1 none [1, 2] none (by decide),
   directive_sizing_rules.2.2.2.1 none [300] (some 2) (by decide),
   directive_sizing_rules.2.2.2.2.1 none [1] none (by decide),
   directive_sizing_rules.2.2.2.2.2.1 none 6 [] (some 8) (by decide) (by decide),
   directive_sizing_rules.2.2.2.2.2.2.1 Assembler.default 0 ⟨none, .Byte, [Operand.Value 1]⟩
     AssemblerSection.Data (Or.inr (Or.inr (Or.inl rfl))) rfl (by decide),
   directive_sizing_rules.2.2.2.2.2.2.2
     { Assembler.default with current_section := some AssemblerSection.Data }
     ⟨none, .Byte, [Operand.Value 1]⟩ [1, 0, 0, 0] (Or.inr (Or.inr (Or.inl rfl)))
     (by decide) rfl rfl⟩
